import Mathlib

/-! Verification of the Execution & Observability Core of the AgentDesignPlayground
repository: a shallow embedding, in Lean 4, of the span data model
(`types.ts`), the two runtime diagram renderers and the static topology
inferrer (`mermaidGenerator`, `src/unnamed/part_006`), the embedded tracer of
the example programs (`SimpleTracer`, `src/unnamed/part_011`), the sandbox
executor and interaction bridge (`src/services/geminiService.ts`), and the
host-side run-identifier guard (`src/App.tsx`).

JavaScript-specific behavior is modelled explicitly: machine values that the
code subjects to truthiness tests are embedded as `JSValue` or as `Option`
with the truthiness test spelled out, `parentId : string | null | string[]`
becomes the inductive `ParentId`, and the regex scans of the static inferrer
are embedded as deterministic character-list scanners that reproduce the
leftmost, greedy, non-overlapping semantics of the JavaScript `exec`/`match`
loops for the concrete patterns appearing in the source.
-/

set_option maxRecDepth 4000

namespace AgentPlayground

/-- A JavaScript runtime value, as far as the embedded code inspects one:
the code only ever branches on truthiness or stores values opaquely. -/
inductive JSValue where
  | vUndef : JSValue
  | vNull : JSValue
  | vBool : Bool → JSValue
  | vNum : Int → JSValue
  | vStr : String → JSValue
  | vObj : String → JSValue
deriving DecidableEq, Repr

/-- JavaScript truthiness of a `JSValue` (`!!v`). -/
def JSValue.truthy : JSValue → Bool
  | .vUndef => false
  | .vNull => false
  | .vBool b => b
  | .vNum n => n != 0
  | .vStr s => s != ""
  | .vObj _ => true

/-- Source: `Span.parentId` from `types.ts`: `string | null | string[]`. -/
inductive ParentId where
  | null : ParentId
  | single : String → ParentId
  | arr : List String → ParentId
deriving DecidableEq, Repr

/-- The `Span` interface from `types.ts`. Timestamps come from `Date.now()`
and are embedded as `Nat`; `endTime` is optional. -/
structure Span where
  id : String
  name : String
  parentId : ParentId
  input : JSValue
  output : JSValue
  status : String
  startTime : Nat
  endTime : Option Nat
deriving DecidableEq, Repr

/-- ASCII alphanumeric test, the character class `[a-zA-Z0-9]` of the
sanitization regex. -/
def isWordChar (c : Char) : Bool :=
  ('a' ≤ c && c ≤ 'z') || ('A' ≤ c && c ≤ 'Z') || ('0' ≤ c && c ≤ '9')

/-- Source: `name.replace(/[^a-zA-Z0-9]/g, '_')`: every character outside
`[a-zA-Z0-9]` is replaced by an underscore. -/
def sanitizeName (s : String) : String :=
  String.mk (s.toList.map (fun c => if isWordChar c then c else '_'))

/-- One Mermaid flowchart edge line: `"  from --> to"`. -/
def edgeLine (fromName toName : String) : String :=
  "  " ++ fromName ++ " --> " ++ toName

/-- The node declaration line pushed for a span by `generateRuntimeDAG`. -/
def nodeLine (sp : Span) : String :=
  "  " ++ sanitizeName sp.name ++ "[\"" ++ sp.name ++ "\"]"

/-- Source: `spans.find(s => s.id === pid)`. -/
def findById (spans : List Span) (pid : String) : Option Span :=
  spans.find? (fun s => s.id == pid)

/-- The edge lines pushed for one span by the Edges loop of
`generateRuntimeDAG`: per-parent edges when `parentId` is an array, a single
parent edge when it is a truthy (non-empty) string and the parent exists,
and the `START` fallback when `parentId` is falsy (null or empty string).
A parent id that finds no span in the list pushes nothing. -/
def dagEdgesFor (spans : List Span) (sp : Span) : List String :=
  match sp.parentId with
  | .arr pids =>
      pids.filterMap (fun pid =>
        (findById spans pid).map (fun p =>
          edgeLine (sanitizeName p.name) (sanitizeName sp.name)))
  | .single pid =>
      if pid != "" then
        match findById spans pid with
        | some p => [edgeLine (sanitizeName p.name) (sanitizeName sp.name)]
        | none => []
      else [edgeLine "START" (sanitizeName sp.name)]
  | .null => [edgeLine "START" (sanitizeName sp.name)]

/-- The body of the `spans.some(...)` test of the End Connections loop:
does span `s`'s `parentId` mention `id` (strict equality for a string,
`includes` for an array)? -/
def referencesAsParent (s : Span) (id : String) : Bool :=
  match s.parentId with
  | .arr pids => pids.contains id
  | .single p => p == id
  | .null => false

/-- Source: `spans.some(s => ...)` over the whole list — note the quantification
includes the span itself. -/
def isReferencedAsParent (spans : List Span) (sp : Span) : Bool :=
  spans.any (fun s => referencesAsParent s sp.id)

/-- The End Connections loop of `generateRuntimeDAG`, per span: an edge into
`END` exactly when no span in the list references it as a parent. -/
def endEdgeFor (spans : List Span) (sp : Span) : Option String :=
  if isReferencedAsParent spans sp then none
  else some (edgeLine (sanitizeName sp.name) "END")

/-- Source: `generateRuntimeDAG` from the diagram module, as the list of lines it
pushes (the source joins them with a newline). -/
def generateRuntimeDAGLines (spans : List Span) : List String :=
  ["graph TD", "  START((START))", "  END((END))"]
    ++ spans.map nodeLine
    ++ spans.flatMap (dagEdgesFor spans)
    ++ spans.filterMap (endEdgeFor spans)

/-- Source: `generateRuntimeDAG` proper: lines joined by `"\n"`. -/
def generateRuntimeDAG (spans : List Span) : String :=
  String.intercalate "\n" (generateRuntimeDAGLines spans)

/-- Stable insertion used to model `[...spans].sort((a, b) => a.startTime -
b.startTime)`: ECMAScript sort is stable, and the unique stable ascending
ordering is produced by inserting each element before the first strictly
larger key in the sorted remainder. -/
def insertByStart (x : Span) : List Span → List Span
  | [] => [x]
  | y :: ys =>
      if y.startTime < x.startTime then y :: insertByStart x ys
      else x :: y :: ys

/-- Stable insertion sort by `startTime`. -/
def sortByStart : List Span → List Span
  | [] => []
  | x :: xs => insertByStart x (sortByStart xs)

/-- Source: `const parentRunning = s.endTime ? s.endTime > span.startTime : true`:
the ternary tests JavaScript truthiness of `endTime`, so an absent or zero
`endTime` counts as still running. -/
def seqParentRunning (s : Span) (childStart : Nat) : Bool :=
  match s.endTime with
  | some e => if e != 0 then decide (childStart < e) else true
  | none => true

/-- Source: `Array.isArray(span.parentId) ? span.parentId : [span.parentId]`. -/
def declaredParentIds : ParentId → List String
  | .arr pids => pids
  | .single p => [p]
  | .null => []

/-- JavaScript truthiness of the `parentId` field (`if (span.parentId)`):
arrays are always truthy, a string is truthy when non-empty. -/
def parentIdTruthy : ParentId → Bool
  | .arr _ => true
  | .single p => p != ""
  | .null => false

/-- The caller chosen by `generateRuntimeSequence` for one span: the first
span in span-list order (the `spans.find` scan) whose id is among the
declared parent ids and that was running when this span started; otherwise
the synthetic `Agent` participant. -/
def seqCallerName (spans : List Span) (sp : Span) : String :=
  if parentIdTruthy sp.parentId then
    match spans.find? (fun s =>
        (declaredParentIds sp.parentId).contains s.id
          && (seqParentRunning s sp.startTime
              && decide (s.startTime < sp.startTime))) with
    | some p => sanitizeName p.name
    | none => "Agent"
  else "Agent"

/-- The four lines rendered for one span of the sequence diagram. -/
def seqCallFor (spans : List Span) (sp : Span) : List String :=
  let safeName := sanitizeName sp.name
  let caller := seqCallerName spans sp
  ["  " ++ caller ++ "->>" ++ safeName ++ ": " ++ sp.name,
   "  activate " ++ safeName,
   "  " ++ safeName ++ "-->>" ++ caller ++ ": return",
   "  deactivate " ++ safeName]

/-- The fixed header of `generateRuntimeSequence`. -/
def seqHeader : List String :=
  ["sequenceDiagram", "  autonumber", "  participant User",
   "  participant Agent as Agent Loop", "  User->>Agent: Start Task",
   "  activate Agent"]

/-- Source: `generateRuntimeSequence` from the diagram module, as its list of
lines. -/
def generateRuntimeSequenceLines (spans : List Span) : List String :=
  seqHeader ++ (sortByStart spans).flatMap (seqCallFor spans)
    ++ ["  deactivate Agent"]

/-- Source: `generateRuntimeSequence` proper: lines joined by `"\n"`. -/
def generateRuntimeSequence (spans : List Span) : String :=
  String.intercalate "\n" (generateRuntimeSequenceLines spans)

/-- Spec-side ("active parent" formula of the spec): `p.startTime <
c.startTime` and (`p.endTime` absent or `> c.startTime`). -/
def specActiveParent (p c : Span) : Bool :=
  decide (p.startTime < c.startTime)
    && (match p.endTime with
        | none => true
        | some e => decide (c.startTime < e))

/-- Spec-side effective caller, amended to span-list order: the first span
in the list whose id is among the child's declared parent ids and that is
active for the child; `Agent` when there is none or when `parentId` is
falsy. -/
def specCallerName (spans : List Span) (sp : Span) : String :=
  if parentIdTruthy sp.parentId then
    match spans.find? (fun s =>
        (declaredParentIds sp.parentId).contains s.id
          && specActiveParent s sp) with
    | some p => sanitizeName p.name
    | none => "Agent"
  else "Agent"

/-- Spec-side identifier derivation exactly as claim C4 words it: strip
(remove) every character outside `[A-Za-z0-9_]`. -/
def specStripId (s : String) : String :=
  String.mk (s.toList.filter (fun c => isWordChar c || c == '_'))

/-- Spec-side identifier derivation as amended: replace every character
outside `[A-Za-z0-9]` by an underscore (stated by a fold, to be compared
with the map inside `sanitizeName`). -/
def specReplaceId (s : String) : String :=
  String.mk (s.toList.foldr
    (fun c acc => (if isWordChar c then c else '_') :: acc) [])

/-- Convenience constructor for concrete spans (fields the renderers ignore
get fixed defaults). -/
def mkSpan (id name : String) (parentId : ParentId) (startTime : Nat)
    (endTime : Option Nat) : Span :=
  { id := id, name := name, parentId := parentId, input := JSValue.vNull,
    output := JSValue.vNull, status := "RUNNING", startTime := startTime,
    endTime := endTime }

/-- Which console method an embedded-program call went through. -/
inductive ConsoleMethod where
  | log : ConsoleMethod
  | info : ConsoleMethod
  | warn : ConsoleMethod
  | error : ConsoleMethod
  | debug : ConsoleMethod
deriving DecidableEq, Repr

/-- The list-surgery performed by `SimpleTracer.endSpan` when the id is
found: `spans.find` returns the first span with the id and the method
mutates that object in place, so exactly the first matching element of the
list changes. -/
def endSpanUpdate (spanId : String) (output : JSValue) (now : Nat) :
    List Span → List Span
  | [] => []
  | s :: rest =>
      if s.id == spanId then
        { s with
          output := output
          status := "COMPLETED"
          endTime := some now } :: rest
      else s :: endSpanUpdate spanId output now rest

/-- Source: `SimpleTracer.endSpan(spanId, output)` from the embedded tracer of the
example programs: the resulting span list together with the console records
the call emits. A found span is completed (output, status, end timestamp)
and a debug record is printed; an unknown id leaves the list untouched and
prints nothing. -/
def endSpan (spans : List Span) (spanId : String) (output : JSValue)
    (now : Nat) : List Span × List (ConsoleMethod × String) :=
  match spans.find? (fun s => s.id == spanId) with
  | some sp =>
      (endSpanUpdate spanId output now spans,
       [(ConsoleMethod.debug, "[Tracer] Ended span: " ++ sp.name)])
  | none => (spans, [])

/-- The possible settlements of a JavaScript promise over embedded values. -/
inductive PromiseResult where
  | fulfilled : JSValue → PromiseResult
  | rejected : JSValue → PromiseResult
deriving DecidableEq, Repr

/-- The `UserInputRequest` constructed by an interaction-bridge call: its
`resolve` field is the promise executor's `resolve` composed with the
transform the bridge applies to the host-supplied value. -/
structure BridgeRequest where
  rtype : String
  message : String
  defaultValue : Option String
  resolveTransform : JSValue → JSValue

/-- Source: `win.promptUser(message, defaultValue)`: builds a `text` request whose
resolve callback is `(val) => resolve(val)` — the identity transform. -/
def promptUser (message : String) (defaultValue : Option String) :
    BridgeRequest :=
  { rtype := "text", message := message, defaultValue := defaultValue,
    resolveTransform := fun v => v }

/-- Source: `win.confirmUser(message)`: builds a `confirm` request whose resolve
callback is `(val) => resolve(!!val)` — boolean coercion. -/
def confirmUser (message : String) : BridgeRequest :=
  { rtype := "confirm", message := message, defaultValue := none,
    resolveTransform := fun v => JSValue.vBool v.truthy }

/-- The host later supplies `v` through the request's resolution callback;
calling a promise executor's `resolve` with a (non-thenable) value settles
the promise as fulfilled — the executor never calls `reject`. -/
def settleWith (req : BridgeRequest) (v : JSValue) : PromiseResult :=
  PromiseResult.fulfilled (req.resolveTransform v)

/-- One of the five patched console slots of the ambient environment:
either whatever function was installed before the run (tagged opaquely), or
one of the interceptor closures, tagged by the `LogRecord` type it
produces. -/
inductive FnSlot where
  | original : String → FnSlot
  | intercepted : String → FnSlot
deriving DecidableEq, Repr

/-- The five diagnostic functions of the ambient console. -/
structure ConsoleState where
  log : FnSlot
  info : FnSlot
  warn : FnSlot
  error : FnSlot
  debug : FnSlot
deriving DecidableEq, Repr

/-- The slice of the ambient (window/global) environment that `executeCode`
mutates: the console, the three injected hooks, and the polyfilled
`process.env` credential slots. -/
structure SandboxEnv where
  console : ConsoleState
  setGraphDefinitionHook : Bool
  promptUserHook : Bool
  confirmUserHook : Bool
  processApiKey : Option String
  processGoogleApiKey : Option String
deriving DecidableEq, Repr

/-- How the Run phase (`await import(url)`) of one invocation ends: normal
completion of the one-shot module, a synchronous throw while it is being
evaluated, or an asynchronous rejection of the module promise. Either kind
of failure makes the `await` throw. -/
inductive RunOutcome where
  | completed : RunOutcome
  | threw : String → RunOutcome
  | rejectedAsync : String → RunOutcome
deriving DecidableEq, Repr

/-- The console state installed by the Setup phase: each method is replaced
by an interceptor that classifies the call (`log → verbose`, `info → info`,
`warn → warn`, `error → error`, `debug → system`). -/
def interceptedConsole : ConsoleState :=
  { log := FnSlot.intercepted "verbose", info := FnSlot.intercepted "info",
    warn := FnSlot.intercepted "warn", error := FnSlot.intercepted "error",
    debug := FnSlot.intercepted "system" }

/-- Source: `customApiKey || process.env.API_KEY || ''` — JavaScript `||` on
strings picks the first truthy (non-empty) operand. -/
def chooseApiKey (customApiKey : Option String) (buildTimeKey : String) :
    String :=
  match customApiKey with
  | some k => if k != "" then k else (if buildTimeKey != "" then buildTimeKey else "")
  | none => if buildTimeKey != "" then buildTimeKey else ""

/-- The Setup phase of `executeCode`: inject the credential under both
conventional names, patch the five console methods, install the graph hook
and the two interaction-bridge entry points. -/
def sandboxSetup (_env : SandboxEnv) (customApiKey : Option String)
    (buildTimeKey : String) : SandboxEnv :=
  let apiKey := chooseApiKey customApiKey buildTimeKey
  { console := interceptedConsole,
    setGraphDefinitionHook := true, promptUserHook := true,
    confirmUserHook := true,
    processApiKey := some apiKey, processGoogleApiKey := some apiKey }

/-- The Teardown phase (the `finally` block): restore the five console
methods from the `originalConsole` record captured at Setup and delete the
three injected hooks. The `process.env` keys are not restored. -/
def sandboxTeardown (originalConsole : ConsoleState) (env : SandboxEnv) :
    SandboxEnv :=
  { env with
    console := originalConsole
    setGraphDefinitionHook := false
    promptUserHook := false
    confirmUserHook := false }

/-- Source: `executeCode` from `geminiService.ts`, as a transformer of the ambient
environment: Setup, then Run with the given outcome, then — on every path,
because the restoration sits in a `finally` block — Teardown, after which a
Run failure is re-raised to the caller. The returned pair is (what the
caller's `await executeCode(...)` observes, the ambient environment at the
moment the promise settles). -/
def executeCode (env : SandboxEnv) (customApiKey : Option String)
    (buildTimeKey : String) (outcome : RunOutcome) :
    Except String Unit × SandboxEnv :=
  let originalConsole := env.console
  let envRun := sandboxSetup env customApiKey buildTimeKey
  let envFinal := sandboxTeardown originalConsole envRun
  match outcome with
  | RunOutcome.completed => (Except.ok (), envFinal)
  | RunOutcome.threw e => (Except.error e, envFinal)
  | RunOutcome.rejectedAsync e => (Except.error e, envFinal)

/-- What the caller observes from a Run outcome once it propagates. -/
def runResult : RunOutcome → Except String Unit
  | RunOutcome.completed => Except.ok ()
  | RunOutcome.threw e => Except.error e
  | RunOutcome.rejectedAsync e => Except.error e

/-- One host-side log record (`ConsoleLog` minus the random id and wall
clock, which the guard logic never reads). -/
structure ConsoleLogModel where
  logType : String
  content : String
deriving DecidableEq, Repr

/-- Source: `ExecutionStatus` from `types.ts`. -/
inductive ExecStatus where
  | idle : ExecStatus
  | running : ExecStatus
  | success : ExecStatus
  | error : ExecStatus
deriving DecidableEq, Repr

/-- The slice of `App` state the run callbacks touch: logs, runtime spans,
the pending input request, the input panel flag, the execution status, and
the current run identifier (`executionIdRef.current`). -/
structure HostState where
  logs : List ConsoleLogModel
  runtimeSpans : Option (List Span)
  userInputRequest : Option String
  inputPanelOpen : Bool
  status : ExecStatus
  executionId : Option String
deriving DecidableEq, Repr

/-- A graph-publication payload as the host's `JSON.parse` sees it: either
a well-formed span array or malformed text. -/
inductive GraphPayload where
  | wellFormed : List Span → GraphPayload
  | malformed : String → GraphPayload
deriving DecidableEq, Repr

/-- The `onLog` callback closure created by `handleRun` for the run tagged
`currentRunId`: appends the record only when the tag still matches
`executionIdRef.current`. -/
def onLogCallback (currentRunId : String) (newLog : ConsoleLogModel)
    (st : HostState) : HostState :=
  if st.executionId == some currentRunId then
    { st with logs := st.logs ++ [newLog] }
  else st

/-- The graph-publication callback closure of `handleRun`: under a matching
tag, a parsable payload replaces the runtime spans and a malformed one is
swallowed with a `console.warn`; under a stale tag nothing happens. The
second component lists the console records the call emits. -/
def onGraphCallback (currentRunId : String) (payload : GraphPayload)
    (st : HostState) : HostState × List (ConsoleMethod × String) :=
  if st.executionId == some currentRunId then
    match payload with
    | GraphPayload.wellFormed spans =>
        ({ st with runtimeSpans := some spans }, [])
    | GraphPayload.malformed _ =>
        (st, [(ConsoleMethod.warn, "Received invalid graph payload")])
  else (st, [])

/-- The input-request callback closure of `handleRun`. -/
def onInputCallback (currentRunId : String) (reqId : String)
    (st : HostState) : HostState :=
  if st.executionId == some currentRunId then
    { st with userInputRequest := some reqId, inputPanelOpen := true }
  else st

/-- The code that runs after `await executeCode(...)` resolves normally. -/
def onRunCompleted (currentRunId : String) (st : HostState) : HostState :=
  if st.executionId == some currentRunId then
    { st with
      logs := st.logs
        ++ [{ logType := "system", content := "Graph execution finished." }],
      status := ExecStatus.success }
  else st

/-- The `catch` branch of `handleRun` (the `apiError` modal classification
it additionally performs is display-only and outside the modelled state). -/
def onRunError (currentRunId : String) (message : String) (st : HostState) :
    HostState :=
  if st.executionId == some currentRunId then
    { st with
      logs := st.logs
        ++ [{ logType := "error", content := "Runtime Error: " ++ message }],
      status := ExecStatus.error }
  else st

/-- The `finally` branch of `handleRun`. -/
def onRunFinally (currentRunId : String) (st : HostState) : HostState :=
  if st.executionId == some currentRunId then
    { st with executionId := none, userInputRequest := none }
  else st

/-! The Static Topology Inferrer (`parseCodeToMermaid`). The JavaScript
source drives three hand-written regular expressions over the
whitespace-normalized program text with `exec` loops (leftmost,
non-overlapping, greedy). For these concrete patterns the greedy matching
is deterministic — every quantified subpattern is a maximal run over a
character class that excludes the character required next — so each regex
is embedded as a scanner over `List Char` that consumes maximal runs. -/

/-- The characters matched by the `\s` class (ASCII range). -/
def jsWhitespaceChar (c : Char) : Bool :=
  c == ' ' || c == '\t' || c == '\n' || c == '\r'
    || c == Char.ofNat 11 || c == Char.ofNat 12

/-- Source: `code.replace(/\s+/g, ' ')`: collapse every maximal whitespace run into
a single space (the flag records whether the previous character was part of
a run). -/
def collapseWsAux : Bool → List Char → List Char
  | _, [] => []
  | prevWs, c :: cs =>
      if jsWhitespaceChar c then
        if prevWs then collapseWsAux true cs
        else ' ' :: collapseWsAux true cs
      else c :: collapseWsAux false cs

/-- Whitespace normalization of the inferrer (step 1). -/
def normalizeWs (s : String) : String :=
  String.mk (collapseWsAux false s.toList)

/-- Source: `['"]` — a JavaScript quote character. -/
def isQuoteChar (c : Char) : Bool :=
  c == '"' || c == Char.ofNat 39

/-- Consume a literal character sequence; `none` when the input does not
start with it. -/
def startsWithChars : List Char → List Char → Option (List Char)
  | [], rest => some rest
  | _, [] => none
  | p :: ps, c :: cs => if c == p then startsWithChars ps cs else none

/-- Source: `\s*`. -/
def skipWs (cs : List Char) : List Char :=
  cs.dropWhile jsWhitespaceChar

/-- Consume one expected character. -/
def expectChar (c : Char) : List Char → Option (List Char)
  | [] => none
  | x :: xs => if x == c then some xs else none

/-- Consume one character of a class. -/
def expectPred (p : Char → Bool) : List Char → Option (Char × List Char)
  | [] => none
  | x :: xs => if p x then some (x, xs) else none

/-- A maximal nonempty run of characters of a class (`[...]+`): `none` when
the very next character is outside the class. -/
def takeRun1 (p : Char → Bool) (cs : List Char) :
    Option (List Char × List Char) :=
  let run := cs.takeWhile p
  if run.isEmpty then none else some (run, cs.dropWhile p)

/-- One attempt of `/\.addNode\s*\(\s*["']([^"']+)["']/` at the head of the
input: on success, the captured node id and the remaining input. -/
def matchNodeAt (cs : List Char) : Option (String × List Char) := do
  let r1 ← startsWithChars ".addNode".toList cs
  let r2 ← expectChar '(' (skipWs r1)
  let (_, r3) ← expectPred isQuoteChar (skipWs r2)
  let (cap, r4) ← takeRun1 (fun c => !isQuoteChar c) r3
  let (_, r5) ← expectPred isQuoteChar r4
  pure (String.mk cap, r5)

/-- One attempt of `/\.addEdge\s*\(\s*([^,]+)\s*,\s*([^)\s,]+)\s*\)/` at the
head of the input. -/
def matchEdgeAt (cs : List Char) :
    Option ((String × String) × List Char) := do
  let r1 ← startsWithChars ".addEdge".toList cs
  let r2 ← expectChar '(' (skipWs r1)
  let (g1, r3) ← takeRun1 (fun c => c != ',') (skipWs r2)
  let r4 ← expectChar ',' r3
  let (g2, r5) ← takeRun1
    (fun c => c != ')' && c != ',' && !jsWhitespaceChar c) (skipWs r4)
  let r6 ← expectChar ')' (skipWs r5)
  pure ((String.mk g1, String.mk g2), r6)

/-- One attempt of
`/\.addConditionalEdges\s*\(\s*([^,]+)\s*,\s*([^,)]+)(?:\s*,\s*({[^}]+}))?/`
at the head of the input: source node, branching-function text, and the
optional `{...}` mapping capture (braces included, as in the source). -/
def matchCondAt (cs : List Char) :
    Option ((String × String × Option String) × List Char) := do
  let r1 ← startsWithChars ".addConditionalEdges".toList cs
  let r2 ← expectChar '(' (skipWs r1)
  let (g1, r3) ← takeRun1 (fun c => c != ',') (skipWs r2)
  let r4 ← expectChar ',' r3
  let (g2, r5) ← takeRun1 (fun c => c != ',' && c != ')') (skipWs r4)
  match (do
      let o1 ← expectChar ',' (skipWs r5)
      let o2 ← expectChar '{' (skipWs o1)
      let (inner, o3) ← takeRun1 (fun c => c != '}') o2
      let o4 ← expectChar '}' o3
      pure (String.mk ('{' :: (inner ++ ['}'])), o4) :
      Option (String × List Char)) with
  | some (m3, r6) => pure ((String.mk g1, String.mk g2, some m3), r6)
  | none => pure ((String.mk g1, String.mk g2, none), r5)

/-- The `exec` loop with the `g` flag: repeatedly attempt the matcher, on
success continue right after the match, on failure slide one character.
Every matcher of this file consumes at least one character on success, so
an input-length fuel is enough to reach the end of the input. -/
def scanAllAux {α : Type} (f : List Char → Option (α × List Char)) :
    Nat → List Char → List α
  | 0, _ => []
  | _, [] => []
  | fuel + 1, c :: cs =>
      match f (c :: cs) with
      | some (a, rest) => a :: scanAllAux f fuel rest
      | none => scanAllAux f fuel cs

/-- All matches of a pattern over an input, in order. -/
def scanAll {α : Type} (f : List Char → Option (α × List Char))
    (cs : List Char) : List α :=
  scanAllAux f cs.length cs

/-- Source: `["']?` — consume a quote when one is present (greedy, and for the
patterns of this file never worth backtracking). -/
def consumeOptQuote : List Char → List Char
  | [] => []
  | c :: cs => if isQuoteChar c then cs else c :: cs

/-- One attempt of the pair pattern
`/["']?([^"':\s]+)["']?\s*:\s*["']?([^"'} \s,]+)["']?/` inside a mapping
capture; returns only the remaining input. -/
def matchPairCore (cs : List Char) : Option (List Char) := do
  let r1 := consumeOptQuote cs
  let (_, r2) ← takeRun1
    (fun c => !isQuoteChar c && c != ':' && !jsWhitespaceChar c) r1
  let r3 := consumeOptQuote r2
  let r4 ← expectChar ':' (skipWs r3)
  let r6 := consumeOptQuote (skipWs r4)
  let (_, r7) ← takeRun1
    (fun c => !isQuoteChar c && c != '}' && c != ','
      && !jsWhitespaceChar c) r6
  pure (consumeOptQuote r7)

/-- One attempt of the pair pattern returning the full matched substring
(`String.match` with `g` yields the matched texts), computed as the
consumed prefix. -/
def matchPairAt (cs : List Char) : Option (String × List Char) := do
  let rest ← matchPairCore cs
  pure (String.mk (cs.take (cs.length - rest.length)), rest)

/-- JavaScript `String.prototype.trim`. -/
def jsTrim (s : String) : String :=
  String.mk
    (((s.toList.dropWhile jsWhitespaceChar).reverse.dropWhile
      jsWhitespaceChar).reverse)

/-- Source: `.replace(/['"]/g, '')`. -/
def stripQuotes (s : String) : String :=
  String.mk (s.toList.filter (fun c => !isQuoteChar c))

/-- Source: `text.split(/\s+/)`: equivalently, collapse whitespace runs and split
on single spaces (a leading or trailing run contributes an empty field,
exactly as in JavaScript). -/
def jsSplitWs (s : String) : List String :=
  (String.mk (collapseWsAux false s.toList)).splitOn " "

/-- The word-wrapping helper `wrapText(text, maxLen)`: texts longer than
`maxLen` are split on whitespace and re-accumulated into lines joined by
`<br/>`; the accumulator state is (finished lines, current line), and the
emptiness tests are the JavaScript truthiness tests of the source. -/
def wrapText (text : String) (maxLen : Nat) : String :=
  if text == "" then ""
  else if text.length ≤ maxLen then text
  else
    let step := fun (st : List String × String) (word : String) =>
      let lines := st.1
      let currentLine := st.2
      if maxLen < currentLine.length + word.length then
        (if currentLine != "" then lines ++ [jsTrim currentLine] else lines,
         word ++ " ")
      else (lines, currentLine ++ word ++ " ")
    let final := (jsSplitWs text).foldl step ([], "")
    let lines :=
      if final.2 != "" then final.1 ++ [jsTrim final.2] else final.1
    String.intercalate "<br/>" lines

/-- Source: `const [label, target] = pair.split(':').map(s => s.trim()
.replace(/['"]/g, ''))`: the first two segments (the pair pattern always
contains a colon, so the defensive defaults are unreachable). -/
def pairLabelTarget (pair : String) : String × String :=
  match (pair.splitOn ":").map (fun s => stripQuotes (jsTrim s)) with
  | a :: b :: _ => (a, b)
  | [a] => (a, "undefined")
  | [] => ("undefined", "undefined")

/-- The node ids captured by step 1 of the inferrer. -/
def parsedNodeIds (code : String) : List String :=
  scanAll matchNodeAt (collapseWsAux false code.toList)

/-- The `(from, to)` captures of step 2. -/
def parsedEdges (code : String) : List (String × String) :=
  scanAll matchEdgeAt (collapseWsAux false code.toList)

/-- The conditional-edge captures of step 3. -/
def parsedConds (code : String) : List (String × String × Option String) :=
  scanAll matchCondAt (collapseWsAux false code.toList)

/-- The lines pushed by one conditional-edge match: one labeled dashed edge
per parseable `label: target` pair of the mapping capture when there is
one (a mapping that parses to no pairs pushes nothing), otherwise a single
dashed edge into the synthetic decision node. -/
def condEmitLines (c : String × String × Option String) : List String :=
  let fromId := stripQuotes (jsTrim c.1)
  match c.2.2 with
  | some mappingStr =>
      (scanAll matchPairAt mappingStr.toList).map (fun pair =>
        let lt := pairLabelTarget pair
        "  " ++ fromId ++ " -.->|" ++ wrapText lt.1 20 ++ "| " ++ lt.2)
  | none =>
      ["  " ++ fromId ++ " -.->|" ++ wrapText (jsTrim c.2.1) 20
        ++ "| ConditionalPath"]

/-- The ids one conditional-edge match adds to `nodesUsed`. -/
def condUsedIds (c : String × String × Option String) : List String :=
  let fromId := stripQuotes (jsTrim c.1)
  match c.2.2 with
  | some mappingStr =>
      fromId :: (scanAll matchPairAt mappingStr.toList).map
        (fun pair => (pairLabelTarget pair).2)
  | none => [fromId, "ConditionalPath"]

/-- Every id accumulated in `nodesUsed` over steps 1–3. -/
def parsedUsedIds (code : String) : List String :=
  parsedNodeIds code
    ++ (parsedEdges code).flatMap (fun e =>
        [stripQuotes (jsTrim e.1), stripQuotes (jsTrim e.2)])
    ++ (parsedConds code).flatMap condUsedIds

/-- The node lines pushed by step 1. -/
def parsedNodeLines (code : String) : List String :=
  (parsedNodeIds code).map (fun nodeId =>
    "  " ++ nodeId ++ "[\"" ++ wrapText nodeId 20 ++ "\"]")

/-- The edge lines pushed by step 2. -/
def parsedEdgeLines (code : String) : List String :=
  (parsedEdges code).map (fun e =>
    "  " ++ stripQuotes (jsTrim e.1) ++ " --> " ++ stripQuotes (jsTrim e.2))

/-- The conditional-edge lines pushed by step 3. -/
def parsedCondLines (code : String) : List String :=
  (parsedConds code).flatMap condEmitLines

/-- The terminal-shape lines of step 4, emitted only for the special ids
that actually occurred. -/
def parsedShapeLines (code : String) : List String :=
  (if (parsedUsedIds code).contains "START" then ["  START((START))"]
   else [])
    ++ (if (parsedUsedIds code).contains "END" then ["  END((END))"]
        else [])
    ++ (if (parsedUsedIds code).contains "ConditionalPath" then
          ["  ConditionalPath((Decision))"]
        else [])

/-- Every line the inferrer pushes after the `"graph TD"` header. -/
def parsedEmittedLines (code : String) : List String :=
  parsedNodeLines code ++ parsedEdgeLines code ++ parsedCondLines code
    ++ parsedShapeLines code

/-- The placeholder line of step 6. -/
def noGraphLine : String :=
  "  NoGraph[No Graph structure detected]"

/-- Source: `parseCodeToMermaid` as its list of lines: header, pushed lines, and
the placeholder exactly when nothing beyond the header was pushed
(`lines.length === 1`). -/
def parseCodeToMermaidLines (code : String) : List String :=
  let allLines := "graph TD" :: parsedEmittedLines code
  if allLines.length == 1 then allLines ++ [noGraphLine] else allLines

/-- Source: `parseCodeToMermaid` proper: lines joined by `"\n"`. -/
def parseCodeToMermaid (code : String) : String :=
  String.intercalate "\n" (parseCodeToMermaidLines code)

/-! Concrete fixtures used by witnesses and counterexamples. -/

/-- The two-span fixture of the spec's testable properties: `A(start 0,
end 10)` and `B(start 5, end 8, parent A)`. -/
def exA : Span := mkSpan "a" "A" ParentId.null 0 (some 10)

/-- See `exA`. -/
def exB : Span := mkSpan "b" "B" (ParentId.single "a") 5 (some 8)

/-- Created first, listed second in the child's parent array. -/
def cexP2 : Span := mkSpan "p2" "P2" ParentId.null 1 (some 100)

/-- Created second, listed first in the child's parent array. -/
def cexP1 : Span := mkSpan "p1" "P1" ParentId.null 0 (some 100)

/-- A fan-in child both of whose declared parents are active when it
starts; its parent array lists `p1` before `p2`. -/
def cexC : Span := mkSpan "c" "C" (ParentId.arr ["p1", "p2"]) 5 (some 9)

/-- Span-creation order `P2, P1, C` — different from the parent-list order
of `cexC`. -/
def cexSpansParentOrder : List Span := [cexP2, cexP1, cexC]

/-- A span whose `parentId` names an id that exists nowhere in the list. -/
def cexDangling : Span := mkSpan "d" "D" (ParentId.single "ghost") 0 none

/-- A span that lists its own id as its parent. -/
def cexSelfParent : Span := mkSpan "a" "A" (ParentId.arr ["a"]) 0 none

/-- A span whose `parentId` is the empty string — present, but falsy. -/
def cexEmptyStrParent : Span := mkSpan "e" "E" (ParentId.single "") 0 none

/-- A span whose name contains a character outside `[A-Za-z0-9_]`. -/
def cexSpacedName : Span := mkSpan "x" "a b" ParentId.null 0 none

/-- A span whose `parentId` is an empty array. -/
def exEmptyArr : Span := mkSpan "f" "F" (ParentId.arr []) 3 none

/-- Source text on which the conditional-edge pattern matches but whose
mapping capture `{ }` parses to no pairs. -/
def cexCondSrc : String := ".addConditionalEdges(a, f, { })"

/-- A host state whose current run identifier is cleared (as `handleStop`
leaves it). -/
def exStaleState : HostState :=
  { logs := [], runtimeSpans := none, userInputRequest := none,
    inputPanelOpen := false, status := ExecStatus.idle,
    executionId := none }

/-- A log record arriving after its run was superseded. -/
def exLateLog : ConsoleLogModel :=
  { logType := "info", content := "late" }

/-! Shared helper lemmas. -/

/-- Helper: `find?` only inspects the predicate on members of the list. -/
theorem find?_ext {α : Type} {p q : α → Bool} (l : List α)
    (h : ∀ x ∈ l, p x = q x) : l.find? p = l.find? q := by
  induction l with
  | nil => rfl
  | cons a t ih =>
      have ha := h a (List.mem_cons_self a t)
      by_cases hpa : p a = true
      · rw [List.find?_cons_of_pos _ hpa, List.find?_cons_of_pos _ (ha ▸ hpa)]
      · rw [List.find?_cons_of_neg _ hpa, List.find?_cons_of_neg _ (ha ▸ hpa)]
        exact ih (fun x hx => h x (List.mem_cons_of_mem a hx))

/-! Claim C1. -/

/-- C1: for every initial ambient environment, every credential
configuration and every outcome of the Run phase — normal completion,
synchronous throw, or asynchronous rejection of the imported module — once
the promise returned by `executeCode` settles, the five diagnostic
functions are restored to their pre-call originals and the three injected
hooks are removed; a Run error reaches the caller only together with the
already-restored environment. -/
theorem executeCode_teardown_restores_console_and_hooks
    (env : SandboxEnv) (customApiKey : Option String)
    (buildTimeKey : String) (outcome : RunOutcome) :
    (executeCode env customApiKey buildTimeKey outcome).2.console
        = env.console
      ∧ (executeCode env customApiKey buildTimeKey
          outcome).2.setGraphDefinitionHook = false
      ∧ (executeCode env customApiKey buildTimeKey
          outcome).2.promptUserHook = false
      ∧ (executeCode env customApiKey buildTimeKey
          outcome).2.confirmUserHook = false
      ∧ (executeCode env customApiKey buildTimeKey outcome).1
          = runResult outcome := by
  cases outcome <;> exact ⟨rfl, rfl, rfl, rfl, rfl⟩

/-! Claim C7. -/

/-- C7: for every resolution value later supplied by the host, the confirm
operation fulfills with the boolean coercion of the value (truthy values
yield exactly `true`, falsy ones exactly `false`) and never rejects; the
text operation fulfills with exactly the supplied value, so resolving with
null yields a caller-observable null, never a rejection. -/
theorem bridge_resolution_fulfills_never_rejects
    (message : String) (dflt : Option String) (v : JSValue) :
    settleWith (confirmUser message) v
        = PromiseResult.fulfilled (JSValue.vBool v.truthy)
      ∧ (v.truthy = true → settleWith (confirmUser message) v
          = PromiseResult.fulfilled (JSValue.vBool true))
      ∧ (v.truthy = false → settleWith (confirmUser message) v
          = PromiseResult.fulfilled (JSValue.vBool false))
      ∧ (∀ e, settleWith (confirmUser message) v ≠ PromiseResult.rejected e)
      ∧ settleWith (promptUser message dflt) v = PromiseResult.fulfilled v
      ∧ settleWith (promptUser message dflt) JSValue.vNull
          = PromiseResult.fulfilled JSValue.vNull
      ∧ (∀ e, settleWith (promptUser message dflt) JSValue.vNull
          ≠ PromiseResult.rejected e) := by
  refine ⟨rfl, fun h => ?_, fun h => ?_, fun e he => ?_, rfl, rfl,
    fun e he => ?_⟩
  · simp [settleWith, confirmUser, h]
  · simp [settleWith, confirmUser, h]
  · simp [settleWith, confirmUser] at he
  · simp [settleWith, promptUser] at he

/-- C7 witness: a truthy resolution of a confirm request at a concrete
value. -/
theorem bridge_resolution_fulfills_never_rejects_witness :
    settleWith (confirmUser "proceed?") (JSValue.vStr "yes")
        = PromiseResult.fulfilled (JSValue.vBool true) := by
  exact (bridge_resolution_fulfills_never_rejects "proceed?" none
    (JSValue.vStr "yes")).2.1 (by decide)

/-! Claim C8. -/

/-- C8: whenever the host's current run identifier no longer matches the
identifier a callback closure was created with — because a new run started
or the user stopped the run — every late-arriving callback (log record,
graph publication, input request) and every post-run continuation of the
superseded run leaves the host's logs, runtime spans, input-request state
and execution status unchanged, and emits nothing. -/
theorem stale_run_callbacks_are_discarded (currentRunId : String)
    (st : HostState) (h : st.executionId ≠ some currentRunId) :
    (∀ l, onLogCallback currentRunId l st = st)
      ∧ (∀ p, onGraphCallback currentRunId p st = (st, []))
      ∧ (∀ r, onInputCallback currentRunId r st = st)
      ∧ onRunCompleted currentRunId st = st
      ∧ (∀ m, onRunError currentRunId m st = st)
      ∧ onRunFinally currentRunId st = st := by
  have hb : (st.executionId == some currentRunId) = false :=
    beq_eq_false_iff_ne.mpr h
  refine ⟨fun l => ?_, fun p => ?_, fun r => ?_, ?_, fun m => ?_, ?_⟩ <;>
    simp [onLogCallback, onGraphCallback, onInputCallback, onRunCompleted,
      onRunError, onRunFinally, hb]

/-- C8 witness: after the run identifier is cleared, each late callback of
run `"r1"` is a no-op on a concrete host state. -/
theorem stale_run_callbacks_are_discarded_witness :
    onLogCallback "r1" exLateLog exStaleState = exStaleState
      ∧ onGraphCallback "r1" (GraphPayload.wellFormed []) exStaleState
          = (exStaleState, [])
      ∧ onInputCallback "r1" "req" exStaleState = exStaleState
      ∧ onRunCompleted "r1" exStaleState = exStaleState
      ∧ onRunError "r1" "boom" exStaleState = exStaleState
      ∧ onRunFinally "r1" exStaleState = exStaleState := by
  have h := stale_run_callbacks_are_discarded "r1" exStaleState (by decide)
  exact ⟨h.1 exLateLog, h.2.1 (GraphPayload.wellFormed []), h.2.2.1 "req",
    h.2.2.2.1, h.2.2.2.2.1 "boom", h.2.2.2.2.2⟩

/-! Claim C6. -/

/-- C6 counterexample: a call of `endSpan` on an unknown id returns
normally and changes nothing, but it is completely silent — the call emits
no console record at all, in particular nothing at warning level — against
the claim that the miss is surfaced on a warning-level side channel. -/
theorem endSpan_miss_emits_no_warning_cex :
    endSpan [exA, exB] "missing" JSValue.vNull 7 = ([exA, exB], []) := by
  decide

/-- C6 (amended): `endSpan(id, output)` never throws. On an id that is the
id of no span in the list it is a completely silent no-op: the list is
returned unchanged and no console record — warning-level or otherwise — is
emitted. On a present id it mutates exactly the first span carrying that
id to `COMPLETED`, with the given output and an end timestamp, leaving
every other span unchanged, and emits one debug-level record. -/
theorem endSpan_silent_noop_or_updates_first
    (spans : List Span) (spanId : String) (output : JSValue) (now : Nat) :
    ((∀ s ∈ spans, s.id ≠ spanId) →
      endSpan spans spanId output now = (spans, []))
      ∧ ((∃ s ∈ spans, s.id = spanId) →
        ∃ l₁ s l₂, spans = l₁ ++ s :: l₂
          ∧ (∀ x ∈ l₁, x.id ≠ spanId) ∧ s.id = spanId
          ∧ endSpan spans spanId output now =
              (l₁ ++ { s with
                       output := output
                       status := "COMPLETED"
                       endTime := some now } :: l₂,
               [(ConsoleMethod.debug, "[Tracer] Ended span: " ++ s.name)])) := by
  constructor
  · intro h
    have hf : spans.find? (fun s => s.id == spanId) = none := by
      rw [List.find?_eq_none]
      intro x hx
      simpa using h x hx
    simp [endSpan, hf]
  · intro h
    induction spans with
    | nil => exact absurd h (by simp)
    | cons a rest ih =>
        by_cases ha : a.id = spanId
        · refine ⟨[], a, rest, by simp, by simp, ha, ?_⟩
          have hpa : (a.id == spanId) = true := beq_iff_eq.mpr ha
          simp [endSpan, endSpanUpdate, List.find?_cons_of_pos _ hpa, hpa]
        · have hrest : ∃ s ∈ rest, s.id = spanId := by
            rcases h with ⟨s, hs, hid⟩
            rcases List.mem_cons.mp hs with rfl | hs'
            · exact absurd hid ha
            · exact ⟨s, hs', hid⟩
          rcases ih hrest with ⟨l₁, s, l₂, hsplit, hl₁, hid, hrun⟩
          refine ⟨a :: l₁, s, l₂, by simp [hsplit], ?_, hid, ?_⟩
          · intro x hx
            rcases List.mem_cons.mp hx with rfl | hx'
            · exact ha
            · exact hl₁ x hx'
          · have hpa : (a.id == spanId) = false :=
              beq_eq_false_iff_ne.mpr ha
            have hfind :
                (a :: rest).find? (fun s => s.id == spanId)
                  = rest.find? (fun s => s.id == spanId) := by
              exact List.find?_cons_of_neg _ (by simp [hpa])
            rcases hcase : rest.find? (fun s => s.id == spanId) with _ | s₀
            · rw [hcase] at hfind
              simp [endSpan, hcase] at hrun
            · have hrest' : endSpan rest spanId output now =
                  (endSpanUpdate spanId output now rest,
                   [(ConsoleMethod.debug,
                     "[Tracer] Ended span: " ++ s₀.name)]) := by
                simp [endSpan, hcase]
              rw [hrest'] at hrun
              have h1 : endSpanUpdate spanId output now rest
                  = l₁ ++ { s with
                            output := output
                            status := "COMPLETED"
                            endTime := some now } :: l₂ :=
                congrArg Prod.fst hrun
              have h2 : [(ConsoleMethod.debug,
                    "[Tracer] Ended span: " ++ s₀.name)]
                  = [(ConsoleMethod.debug,
                    "[Tracer] Ended span: " ++ s.name)] :=
                congrArg Prod.snd hrun
              have hgoal : endSpan (a :: rest) spanId output now
                  = (endSpanUpdate spanId output now (a :: rest),
                     [(ConsoleMethod.debug,
                       "[Tracer] Ended span: " ++ s₀.name)]) := by
                simp [endSpan, hfind, hcase]
              have hupd : endSpanUpdate spanId output now (a :: rest)
                  = a :: endSpanUpdate spanId output now rest := by
                simp [endSpanUpdate, hpa]
              rw [hgoal, hupd, h1, h2]
              simp

/-- C6 witness: the silent-no-op branch at an absent id and the
first-match-update branch at a present id, on concrete lists. -/
theorem endSpan_silent_noop_or_updates_first_witness :
    endSpan [exB] "nope" JSValue.vNull 9 = ([exB], [])
      ∧ (∃ l₁ s l₂, ([exA, exB] : List Span) = l₁ ++ s :: l₂
          ∧ (∀ x ∈ l₁, x.id ≠ "b") ∧ s.id = "b"
          ∧ endSpan [exA, exB] "b" (JSValue.vStr "out") 9 =
              (l₁ ++ { s with
                       output := JSValue.vStr "out"
                       status := "COMPLETED"
                       endTime := some 9 } :: l₂,
               [(ConsoleMethod.debug, "[Tracer] Ended span: " ++ s.name)])) := by
  constructor
  · exact (endSpan_silent_noop_or_updates_first [exB] "nope"
      JSValue.vNull 9).1 (by decide)
  · exact (endSpan_silent_noop_or_updates_first [exA, exB] "b"
      (JSValue.vStr "out") 9).2 ⟨exB, by simp, by decide⟩

/-! Helper lemmas about the dependency-graph renderer. -/

/-- The boolean parent test of the End Connections loop agrees with
membership in the declared parent-id list. -/
theorem referencesAsParent_iff (s : Span) (id : String) :
    referencesAsParent s id = true ↔ id ∈ declaredParentIds s.parentId := by
  cases hp : s.parentId with
  | null => simp [referencesAsParent, declaredParentIds, hp]
  | single p =>
      simp only [referencesAsParent, declaredParentIds, hp,
        List.mem_singleton, beq_iff_eq]
      exact eq_comm
  | arr pids =>
      simp only [referencesAsParent, declaredParentIds, hp]
      exact List.elem_iff

/-- A span is unreferenced exactly when its id is in nobody's declared
parent-id list (the span itself included). -/
theorem isReferencedAsParent_eq_false (spans : List Span) (sp : Span) :
    isReferencedAsParent spans sp = false
      ↔ ∀ s ∈ spans, sp.id ∉ declaredParentIds s.parentId := by
  rw [isReferencedAsParent, List.any_eq_false]
  constructor
  · intro h s hs hmem
    exact h s hs ((referencesAsParent_iff s sp.id).mpr hmem)
  · intro h s hs hb
    exact h s hs ((referencesAsParent_iff s sp.id).mp hb)

/-- An unreferenced member span gets its `END` edge emitted, and the edge
line is part of the rendered output. -/
theorem end_edge_mem_of_unreferenced (spans : List Span) (sp : Span)
    (h : sp ∈ spans)
    (hunref : ∀ s ∈ spans, sp.id ∉ declaredParentIds s.parentId) :
    endEdgeFor spans sp = some (edgeLine (sanitizeName sp.name) "END")
      ∧ edgeLine (sanitizeName sp.name) "END"
          ∈ generateRuntimeDAGLines spans := by
  have hr : isReferencedAsParent spans sp = false :=
    (isReferencedAsParent_eq_false spans sp).mpr hunref
  have hedge : endEdgeFor spans sp
      = some (edgeLine (sanitizeName sp.name) "END") := by
    simp [endEdgeFor, hr]
  refine ⟨hedge, ?_⟩
  unfold generateRuntimeDAGLines
  exact List.mem_append_right _
    (List.mem_filterMap.mpr ⟨sp, h, hedge⟩)

/-! Claim C3. -/

/-- C3 counterexample: a span whose `parentId` references an id that exists
nowhere in the list does NOT receive an edge from `START` in the
dependency-graph output — the dangling parent edge is simply dropped and
the span keeps no incoming edge at all. -/
theorem dag_dangling_parent_gets_no_start_edge_cex :
    "  START --> D" ∉ generateRuntimeDAGLines [cexDangling]
      ∧ generateRuntimeDAGLines [cexDangling]
          = ["graph TD", "  START((START))", "  END((END))",
             "  D[\"D\"]", "  D --> END"] := by
  decide

/-- C3 (amended): a span with a declared (truthy) `parentId` all of whose
referenced ids are missing from the list is not an error: the
dependency-graph edge loop emits no edge for it (neither a parent edge nor
a `START` edge), and the sequence renderer falls back to the default
top-level `Agent` caller. -/
theorem dangling_parents_drop_edges_and_default_caller
    (spans : List Span) (sp : Span)
    (hdecl : parentIdTruthy sp.parentId = true)
    (hmiss : ∀ s ∈ spans, s.id ∉ declaredParentIds sp.parentId) :
    dagEdgesFor spans sp = [] ∧ seqCallerName spans sp = "Agent" := by
  have hfind : ∀ pid ∈ declaredParentIds sp.parentId,
      findById spans pid = none := by
    intro pid hpid
    rw [findById, List.find?_eq_none]
    intro s hs
    simp only [beq_iff_eq]
    intro hsid
    exact hmiss s hs (hsid ▸ hpid)
  constructor
  · cases hp : sp.parentId with
    | null => simp [parentIdTruthy, hp] at hdecl
    | single p =>
        have hne : (p != "") = true := by
          simpa [parentIdTruthy, hp] using hdecl
        have hnone : findById spans p = none :=
          hfind p (by simp [declaredParentIds, hp])
        simp [dagEdgesFor, hp, hne, hnone]
    | arr pids =>
        rw [dagEdgesFor, hp]
        rw [List.filterMap_eq_nil_iff]
        intro pid hpid
        rw [hfind pid (by simp [declaredParentIds, hp, hpid])]
        rfl
  · rw [seqCallerName, if_pos hdecl]
    have hnone : spans.find? (fun s =>
        (declaredParentIds sp.parentId).contains s.id
          && (seqParentRunning s sp.startTime
              && decide (s.startTime < sp.startTime))) = none := by
      rw [List.find?_eq_none]
      intro s hs hb
      have hc : (declaredParentIds sp.parentId).contains s.id = true :=
        (Bool.and_eq_true_iff.mp hb).1
      exact hmiss s hs (List.elem_iff.mp hc)
    rw [hnone]

/-- C3 witness: the single dangling-parent span of the counterexample
fixture. -/
theorem dangling_parents_drop_edges_and_default_caller_witness :
    dagEdgesFor [cexDangling] cexDangling = []
      ∧ seqCallerName [cexDangling] cexDangling = "Agent" := by
  exact dangling_parents_drop_edges_and_default_caller [cexDangling]
    cexDangling (by decide) (by decide)

/-! Claim C4. -/

/-- C4 counterexample: for the span named `"a b"`, the identifier used in
the rendered output is `"a_b"` — the space is replaced by an underscore —
whereas stripping (removing) the characters outside `[A-Za-z0-9_]`, as the
claim states, would give `"ab"`; no `"ab"` node line occurs in the
output. -/
theorem identifier_underscores_not_stripped_cex :
    specStripId "a b" = "ab"
      ∧ sanitizeName "a b" = "a_b"
      ∧ "  a_b[\"a b\"]" ∈ generateRuntimeDAGLines [cexSpacedName]
      ∧ "  ab[\"a b\"]" ∉ generateRuntimeDAGLines [cexSpacedName] := by
  decide

/-- C4 (amended): the node/edge identifier used by both diagram renderers
is the span name with every character outside `[A-Za-z0-9]` replaced by an
underscore (not stripped); consequently each of its characters lies in
`[A-Za-z0-9_]` and its length equals the name's length; and the node line
of every member span, built from exactly this identifier, occurs in the
dependency-graph output. -/
theorem identifier_is_underscore_replacement
    (spans : List Span) (sp : Span) (h : sp ∈ spans) :
    nodeLine sp ∈ generateRuntimeDAGLines spans
      ∧ sanitizeName sp.name = specReplaceId sp.name
      ∧ (sanitizeName sp.name).length = sp.name.length
      ∧ ∀ c ∈ (sanitizeName sp.name).toList,
          (isWordChar c || c == '_') = true := by
  refine ⟨?_, ?_, ?_, ?_⟩
  · unfold generateRuntimeDAGLines
    exact List.mem_append_left _ (List.mem_append_left _
      (List.mem_append_right _ (List.mem_map_of_mem nodeLine h)))
  · unfold sanitizeName specReplaceId
    exact congrArg String.mk (List.map_eq_foldr _ _)
  · show (sp.name.toList.map
        (fun c => if isWordChar c then c else '_')).length
      = sp.name.toList.length
    exact List.length_map _ _
  · intro c hc
    have hc' : c ∈ sp.name.toList.map
        (fun c => if isWordChar c then c else '_') := hc
    rcases List.mem_map.mp hc' with ⟨a, _, rfl⟩
    by_cases ha : isWordChar a = true
    · simp [ha]
    · simp [ha]

/-- C4 witness: the replacement identifier facts at the concrete span
named `"a b"`. -/
theorem identifier_is_underscore_replacement_witness :
    nodeLine cexSpacedName ∈ generateRuntimeDAGLines [cexSpacedName]
      ∧ sanitizeName cexSpacedName.name = specReplaceId cexSpacedName.name
      ∧ (sanitizeName cexSpacedName.name).length
          = cexSpacedName.name.length
      ∧ ∀ c ∈ (sanitizeName cexSpacedName.name).toList,
          (isWordChar c || c == '_') = true := by
  exact identifier_is_underscore_replacement [cexSpacedName] cexSpacedName
    (by decide)

/-! Claim C5. -/

/-- C5 counterexample: a span that lists its own id in its `parentId` is
counted as "referenced as a parent" by the code (the `spans.some` scan does
not exclude the span itself), so although no OTHER span references it — as
the claim requires — it gets no edge into `END`. -/
theorem self_parent_blocks_end_edge_cex :
    (∀ s ∈ ([cexSelfParent] : List Span), s.id = cexSelfParent.id)
      ∧ "  A --> END" ∉ generateRuntimeDAGLines [cexSelfParent]
      ∧ generateRuntimeDAGLines [cexSelfParent]
          = ["graph TD", "  START((START))", "  END((END))",
             "  A[\"A\"]", "  A --> A"] := by
  decide

/-- C5 (amended): for every member span, the End Connections loop emits the
edge from the span's sanitized node to `END` exactly when the span's id
appears in no span's `parentId` — the span itself included, not only
"other" spans; in that case the edge line occurs in the output, and when
the id does appear in some span's `parentId` (directly or inside an array)
nothing is emitted for it. -/
theorem end_edge_iff_never_referenced
    (spans : List Span) (sp : Span) (h : sp ∈ spans) :
    (endEdgeFor spans sp = some (edgeLine (sanitizeName sp.name) "END")
        ↔ ∀ s ∈ spans, sp.id ∉ declaredParentIds s.parentId)
      ∧ ((∀ s ∈ spans, sp.id ∉ declaredParentIds s.parentId) →
          edgeLine (sanitizeName sp.name) "END"
            ∈ generateRuntimeDAGLines spans)
      ∧ ((∃ s ∈ spans, sp.id ∈ declaredParentIds s.parentId) →
          endEdgeFor spans sp = none) := by
  refine ⟨⟨?_, ?_⟩, ?_, ?_⟩
  · intro he
    rcases hr : isReferencedAsParent spans sp with _ | _
    · exact (isReferencedAsParent_eq_false spans sp).mp hr
    · simp [endEdgeFor, hr] at he
  · intro hunref
    exact (end_edge_mem_of_unreferenced spans sp h hunref).1
  · intro hunref
    exact (end_edge_mem_of_unreferenced spans sp h hunref).2
  · intro hex
    rcases hex with ⟨s, hs, hmem⟩
    have hr : isReferencedAsParent spans sp = true := by
      rw [isReferencedAsParent, List.any_eq_true]
      exact ⟨s, hs, (referencesAsParent_iff s sp.id).mpr hmem⟩
    simp [endEdgeFor, hr]

/-- C5 witness: the `END`-edge equivalence at the spec's two-span fixture
(span `A` is referenced by `B` and gets no `END` edge; `B` is unreferenced
and gets one). -/
theorem end_edge_iff_never_referenced_witness :
    (endEdgeFor [exA, exB] exB
        = some (edgeLine (sanitizeName exB.name) "END")
      ↔ ∀ s ∈ ([exA, exB] : List Span),
          exB.id ∉ declaredParentIds s.parentId)
      ∧ ((∀ s ∈ ([exA, exB] : List Span),
            exB.id ∉ declaredParentIds s.parentId) →
          edgeLine (sanitizeName exB.name) "END"
            ∈ generateRuntimeDAGLines [exA, exB])
      ∧ ((∃ s ∈ ([exA, exB] : List Span),
            exB.id ∈ declaredParentIds s.parentId) →
          endEdgeFor [exA, exB] exB = none) := by
  exact end_edge_iff_never_referenced [exA, exB] exB (by decide)

/-! Claim C10. -/

/-- C10 counterexample: a span whose `parentId` is the empty string — a
present, non-null value — still receives the `START` fallback edge, against
the claim that the fallback applies only when `parentId` is null/absent:
the code guards the fallback by JavaScript truthiness, not by a null
check. -/
theorem start_fallback_on_empty_string_parent_cex :
    cexEmptyStrParent.parentId ≠ ParentId.null
      ∧ edgeLine "START" "E"
          ∈ dagEdgesFor [cexEmptyStrParent] cexEmptyStrParent
      ∧ "  START --> E" ∈ generateRuntimeDAGLines [cexEmptyStrParent] := by
  decide

/-- C10 (amended): a member span whose `parentId` is an empty array
receives no incoming edge at all from the dependency-graph edge loop —
the per-parent loop emits nothing, and the `START` fallback applies
exactly to falsy `parentId` values (null/absent or the empty string), not
to arrays — while its node declaration still appears and, when the span is
unreferenced as a parent, so does its outgoing edge to `END`. Moreover,
every edge the loop emits for a span with a truthy `parentId` is a
parent edge witnessed by an actual member parent span. -/
theorem empty_parent_array_span_unconnected
    (spans : List Span) (sp : Span) (h : sp ∈ spans)
    (harr : sp.parentId = ParentId.arr []) :
    dagEdgesFor spans sp = []
      ∧ nodeLine sp ∈ generateRuntimeDAGLines spans
      ∧ ((∀ s ∈ spans, sp.id ∉ declaredParentIds s.parentId) →
          edgeLine (sanitizeName sp.name) "END"
            ∈ generateRuntimeDAGLines spans)
      ∧ (∀ t : Span, parentIdTruthy t.parentId = false →
          dagEdgesFor spans t = [edgeLine "START" (sanitizeName t.name)])
      ∧ (∀ t : Span, parentIdTruthy t.parentId = true →
          ∀ l ∈ dagEdgesFor spans t, ∃ p ∈ spans,
            p.id ∈ declaredParentIds t.parentId
              ∧ l = edgeLine (sanitizeName p.name) (sanitizeName t.name)) := by
  refine ⟨?_, ?_, ?_, ?_, ?_⟩
  · simp [dagEdgesFor, harr]
  · unfold generateRuntimeDAGLines
    exact List.mem_append_left _ (List.mem_append_left _
      (List.mem_append_right _ (List.mem_map_of_mem nodeLine h)))
  · intro hunref
    exact (end_edge_mem_of_unreferenced spans sp h hunref).2
  · intro t ht
    cases hp : t.parentId with
    | null => simp [dagEdgesFor, hp]
    | single p =>
        have hpe : (p != "") = false := by
          simpa [parentIdTruthy, hp] using ht
        simp [dagEdgesFor, hp, hpe]
    | arr pids => simp [parentIdTruthy, hp] at ht
  · intro t ht l hl
    cases hp : t.parentId with
    | null => simp [parentIdTruthy, hp] at ht
    | single p =>
        simp only [dagEdgesFor, hp] at hl
        have hpe : (p != "") = true := by
          simpa [parentIdTruthy, hp] using ht
        rw [if_pos hpe] at hl
        rcases hfind : findById spans p with _ | q
        · rw [hfind] at hl
          simp at hl
        · rw [hfind] at hl
          have hq : q.id = p := by
            have := List.find?_some hfind
            simpa using this
          have hqmem : q ∈ spans := List.mem_of_find?_eq_some hfind
          have hleq : l = edgeLine (sanitizeName q.name)
              (sanitizeName t.name) := by simpa using hl
          exact ⟨q, hqmem, by simp [declaredParentIds, hp, hq], hleq⟩
    | arr pids =>
        simp only [dagEdgesFor, hp] at hl
        rcases List.mem_filterMap.mp hl with ⟨pid, hpid, hmap⟩
        rcases hfind : findById spans pid with _ | q
        · rw [hfind] at hmap
          simp at hmap
        · rw [hfind] at hmap
          have hq : q.id = pid := by
            have := List.find?_some hfind
            simpa using this
          have hqmem : q ∈ spans := List.mem_of_find?_eq_some hfind
          refine ⟨q, hqmem, by simp [declaredParentIds, hp, hq, hpid], ?_⟩
          simpa using hmap.symm

/-- C10 witness: the empty-array span `F` alongside the fixture spans. -/
theorem empty_parent_array_span_unconnected_witness :
    dagEdgesFor [exA, exEmptyArr] exEmptyArr = []
      ∧ nodeLine exEmptyArr ∈ generateRuntimeDAGLines [exA, exEmptyArr]
      ∧ ((∀ s ∈ ([exA, exEmptyArr] : List Span),
            exEmptyArr.id ∉ declaredParentIds s.parentId) →
          edgeLine (sanitizeName exEmptyArr.name) "END"
            ∈ generateRuntimeDAGLines [exA, exEmptyArr])
      ∧ (∀ t : Span, parentIdTruthy t.parentId = false →
          dagEdgesFor [exA, exEmptyArr] t
            = [edgeLine "START" (sanitizeName t.name)])
      ∧ (∀ t : Span, parentIdTruthy t.parentId = true →
          ∀ l ∈ dagEdgesFor [exA, exEmptyArr] t, ∃ p ∈ ([exA, exEmptyArr] : List Span),
            p.id ∈ declaredParentIds t.parentId
              ∧ l = edgeLine (sanitizeName p.name) (sanitizeName t.name)) := by
  exact empty_parent_array_span_unconnected [exA, exEmptyArr] exEmptyArr
    (by decide) (by decide)

/-! Claim C2. -/

/-- C2 counterexample: both declared parents `P1` and `P2` of span `C` are
active when `C` starts, and `C`'s parent list names `p1` first; the claim
therefore predicts the call line `"  P1->>C: C"`. The rendered output
instead contains `"  P2->>C: C"` and no `P1` call line: the `spans.find`
scan picks the first active parent in span-list (creation) order, and `P2`
was created first. -/
theorem seq_caller_ignores_parent_list_order_cex :
    cexC.parentId = ParentId.arr ["p1", "p2"]
      ∧ specActiveParent cexP1 cexC = true
      ∧ specActiveParent cexP2 cexC = true
      ∧ "  P2->>C: C" ∈ generateRuntimeSequenceLines cexSpansParentOrder
      ∧ "  P1->>C: C" ∉ generateRuntimeSequenceLines cexSpansParentOrder := by
  decide

/-- C2 (amended): over span lists whose recorded end timestamps are nonzero
(every `Date.now()` value is), the sequence renderer assigns each span with
a truthy declared `parentId` the effective caller given by the FIRST span
in span-list order — not parent-list order — whose id is among the declared
parent ids and that is active for the child (`p.startTime < c.startTime`
and `p.endTime` absent or `> c.startTime`); when no declared parent is
active, or `parentId` is falsy, the caller is the synthetic top-level
`Agent` participant. The whole rendered output equals the spec-side
prediction built from this caller rule. -/
theorem seq_caller_first_active_in_span_list_order
    (spans : List Span) (h : ∀ s ∈ spans, s.endTime ≠ some 0) :
    generateRuntimeSequenceLines spans
      = seqHeader ++ (sortByStart spans).flatMap (fun sp =>
          ["  " ++ specCallerName spans sp ++ "->>" ++ sanitizeName sp.name
              ++ ": " ++ sp.name,
           "  activate " ++ sanitizeName sp.name,
           "  " ++ sanitizeName sp.name ++ "-->>" ++ specCallerName spans sp
              ++ ": return",
           "  deactivate " ++ sanitizeName sp.name])
        ++ ["  deactivate Agent"] := by
  have hcall : ∀ sp, seqCallerName spans sp = specCallerName spans sp := by
    intro sp
    unfold seqCallerName specCallerName
    have hf : spans.find? (fun s =>
        (declaredParentIds sp.parentId).contains s.id
          && (seqParentRunning s sp.startTime
              && decide (s.startTime < sp.startTime)))
      = spans.find? (fun s =>
        (declaredParentIds sp.parentId).contains s.id
          && specActiveParent s sp) := by
      apply find?_ext
      intro s hs
      rcases hend : s.endTime with _ | e
      · simp [seqParentRunning, specActiveParent, hend, Bool.and_comm]
      · have he : (e != 0) = true := by
          have : e ≠ 0 := by
            intro h0
            exact h s hs (by rw [hend, h0])
          simpa using this
        simp [seqParentRunning, specActiveParent, hend, he, Bool.and_comm]
    rw [hf]
  have hfun : seqCallFor spans = (fun sp =>
      ["  " ++ specCallerName spans sp ++ "->>" ++ sanitizeName sp.name
          ++ ": " ++ sp.name,
       "  activate " ++ sanitizeName sp.name,
       "  " ++ sanitizeName sp.name ++ "-->>" ++ specCallerName spans sp
          ++ ": return",
       "  deactivate " ++ sanitizeName sp.name]) := by
    funext sp
    simp only [seqCallFor]
    rw [hcall sp]
  unfold generateRuntimeSequenceLines
  rw [hfun]

/-- C2 witness: the spec's own fixture `A(start 0, end 10)`,
`B(start 5, end 8, parent A)` — interval containment holds, so the spec
caller rule names `A`, and the rendered output matches the prediction. -/
theorem seq_caller_first_active_in_span_list_order_witness :
    (∀ s ∈ ([exA, exB] : List Span), s.endTime ≠ some 0)
      ∧ generateRuntimeSequenceLines [exA, exB]
          = seqHeader ++ (sortByStart [exA, exB]).flatMap (fun sp =>
              ["  " ++ specCallerName [exA, exB] sp ++ "->>"
                  ++ sanitizeName sp.name ++ ": " ++ sp.name,
               "  activate " ++ sanitizeName sp.name,
               "  " ++ sanitizeName sp.name ++ "-->>"
                  ++ specCallerName [exA, exB] sp ++ ": return",
               "  deactivate " ++ sanitizeName sp.name])
            ++ ["  deactivate Agent"] := by
  have hnz : ∀ s ∈ ([exA, exB] : List Span), s.endTime ≠ some 0 := by
    decide
  exact ⟨hnz, seq_caller_first_active_in_span_list_order [exA, exB] hnz⟩

/-! Helper lemmas about the static topology inferrer's output lines. -/

/-- Character membership survives appending on the right. -/
theorem mem_data_append_left {c : Char} (x y : String) (h : c ∈ x.data) :
    c ∈ (x ++ y).data := by
  rw [String.data_append]
  exact List.mem_append_left _ h

/-- Character membership survives appending on the left. -/
theorem mem_data_append_right {c : Char} (x y : String) (h : c ∈ y.data) :
    c ∈ (x ++ y).data := by
  rw [String.data_append]
  exact List.mem_append_right _ h

/-- A line containing a double quote is not the placeholder line. -/
theorem ne_noGraphLine_of_quote {l : String} (hq : '"' ∈ l.data) :
    l ≠ noGraphLine := by
  intro he
  rw [he] at hq
  exact absurd hq (by decide)

/-- A line containing `>` is not the placeholder line. -/
theorem ne_noGraphLine_of_gt {l : String} (hq : '>' ∈ l.data) :
    l ≠ noGraphLine := by
  intro he
  rw [he] at hq
  exact absurd hq (by decide)

/-- Membership in a conditional singleton list forces the element. -/
theorem mem_if_singleton {α : Type} {c : Prop} [Decidable c] {a x : α}
    (h : x ∈ if c then [a] else ([] : List α)) : x = a := by
  split at h
  · simpa using h
  · simp at h

/-- No line the inferrer's scanning steps push equals the placeholder
line: node lines carry a double quote, edge and conditional-edge lines
carry `>`, and the three terminal-shape lines are fixed strings distinct
from it. -/
theorem emitted_ne_noGraphLine (code : String) :
    ∀ l ∈ parsedEmittedLines code, l ≠ noGraphLine := by
  intro l hl
  unfold parsedEmittedLines at hl
  rcases List.mem_append.mp hl with hnec | hs
  rotate_left
  · -- shape lines
    unfold parsedShapeLines at hs
    rcases List.mem_append.mp hs with hse | hcp
    · rcases List.mem_append.mp hse with hst | hen
      · rw [mem_if_singleton hst]
        decide
      · rw [mem_if_singleton hen]
        decide
    · rw [mem_if_singleton hcp]
      decide
  rcases List.mem_append.mp hnec with hne | hc
  rotate_left
  · -- conditional-edge lines
    unfold parsedCondLines at hc
    rcases List.mem_flatMap.mp hc with ⟨cnd, _, hin⟩
    unfold condEmitLines at hin
    rcases hm : cnd.2.2 with _ | mappingStr
    · rw [hm] at hin
      have hl' : l = "  " ++ stripQuotes (jsTrim cnd.1) ++ " -.->|"
          ++ wrapText (jsTrim cnd.2.1) 20 ++ "| ConditionalPath" := by
        simpa using hin
      rw [hl']
      refine ne_noGraphLine_of_gt ?_
      refine mem_data_append_left _ _ ?_
      refine mem_data_append_left _ _ ?_
      exact mem_data_append_right _ _ (by decide)
    · rw [hm] at hin
      simp only at hin
      rcases List.mem_map.mp hin with ⟨pair, _, hle⟩
      rw [← hle]
      refine ne_noGraphLine_of_gt ?_
      refine mem_data_append_left _ _ ?_
      refine mem_data_append_left _ _ ?_
      refine mem_data_append_left _ _ ?_
      exact mem_data_append_right _ _ (by decide)
  rcases List.mem_append.mp hne with hn | he
  · -- node lines
    unfold parsedNodeLines at hn
    rcases List.mem_map.mp hn with ⟨nodeId, _, hle⟩
    rw [← hle]
    refine ne_noGraphLine_of_quote ?_
    exact mem_data_append_right _ _ (by decide)
  · -- edge lines
    unfold parsedEdgeLines at he
    rcases List.mem_map.mp he with ⟨e, _, hle⟩
    rw [← hle]
    refine ne_noGraphLine_of_gt ?_
    refine mem_data_append_left _ _ ?_
    exact mem_data_append_right _ _ (by decide)

/-! Claim C9. -/

/-- C9 counterexample: on the source text `.addConditionalEdges(a, f, { })`
the recognized conditional-edge declaration form does match — the scan
captures source `a`, function `f` and mapping `{ }` — yet the inferrer
still returns exactly the two-line placeholder output, because the matched
mapping parses to no `label: target` pairs and so pushes no line. A
recognized declaration therefore does not always suppress the
placeholder. -/
theorem cond_edge_match_placeholder_cex :
    parsedConds cexCondSrc = [("a", "f", some "{ }")]
      ∧ parseCodeToMermaidLines cexCondSrc = ["graph TD", noGraphLine]
      ∧ parseCodeToMermaid cexCondSrc
          = "graph TD\n  NoGraph[No Graph structure detected]" := by
  refine ⟨by decide, by decide, by decide⟩

/-- C9 (amended): the inferrer returns exactly the two-line output — the
graph header followed by the single placeholder node — precisely when its
scanning steps push no line at all: no node declaration matches, no edge
declaration matches, every conditional-edge match has a mapping capture
that parses to no pairs, and no `START`/`END`/`ConditionalPath` shape line
is due. In particular (the claim's stated direction) source text on which
none of the three declaration forms match yields exactly the placeholder
output. -/
theorem placeholder_iff_no_lines_emitted (code : String) :
    (parseCodeToMermaidLines code = ["graph TD", noGraphLine]
        ↔ parsedEmittedLines code = [])
      ∧ ((parsedNodeIds code = [] ∧ parsedEdges code = []
            ∧ parsedConds code = []) →
          parseCodeToMermaidLines code = ["graph TD", noGraphLine]) := by
  have hplaceholder : parsedEmittedLines code = [] →
      parseCodeToMermaidLines code = ["graph TD", noGraphLine] := by
    intro hE
    simp [parseCodeToMermaidLines, hE]
  refine ⟨⟨?_, hplaceholder⟩, ?_⟩
  · intro he
    rcases hE : parsedEmittedLines code with _ | ⟨a, E⟩
    · rfl
    · exfalso
      rw [parseCodeToMermaidLines] at he
      rw [hE] at he
      have hcond : ¬ ((("graph TD" :: a :: E).length == 1) = true) := by
        simp
      rw [if_neg hcond] at he
      have ha : a = noGraphLine := by
        have := List.cons.injEq "graph TD" (a :: E) "graph TD" [noGraphLine]
        rw [this] at he
        have := (List.cons.injEq a E noGraphLine []).mp he.2
        exact this.1
      exact emitted_ne_noGraphLine code a
        (by rw [hE]; exact List.mem_cons_self a E) ha
  · intro hzero
    apply hplaceholder
    simp [parsedEmittedLines, parsedNodeLines, parsedEdgeLines,
      parsedCondLines, parsedShapeLines, parsedUsedIds, hzero.1,
      hzero.2.1, hzero.2.2]

/-- C9 witness: source text with no recognizable declaration yields
exactly the placeholder output. -/
theorem placeholder_iff_no_lines_emitted_witness :
    parseCodeToMermaidLines "const x = 1; console.log(x);"
      = ["graph TD", noGraphLine] := by
  exact (placeholder_iff_no_lines_emitted "const x = 1; console.log(x);").2
    ⟨by decide, by decide, by decide⟩

end AgentPlayground
